import Mathlib

/-!
Verification of the layout core of the `pdf_generator` repository.

The program's text-measuring collaborator (`reportlab.pdfbase.pdfmetrics.stringWidth`)
is external (spec §6: deterministic width oracle), so every definition below is
parameterised by a measure function `sw : String → String → ℚ → ℚ`
(text, font name, font size ↦ width).  Machine floats are modelled by `ℚ`;
the arithmetic performed by the source is exactly mirrored on `ℚ`.

Sources embedded here:
  * `src/paper_preview.py`: `to_roman`, `link_citations`, `_autosize_col_widths`,
    `make_fullwidth_then_two_col_template`, `make_table_flowables`,
    `measure_fullwidth_table_group` and the full-width-table story branch of
    `create_research_paper_pdf`.
  * `src/widgets.py` / `src/coversheet.py`: `wrap_text_to_width`, `auto_fit_font_size`.
  * `src/create_table.py`: `wrap_text_to_width` (table variant), `draw_rounded_table`.
-/

/- ----------------------------------------------------------------
   Word splitting (Python `str.split()`): split on whitespace runs,
   dropping empty pieces.
---------------------------------------------------------------- -/

/-- Accumulating splitter over the character list; `acc` holds the current
word reversed.  Models Python `str.split()` (split on whitespace, drop empties). -/
def splitWordsAux : List Char → List Char → List String
  | [], [] => []
  | [], acc => [String.mk acc.reverse]
  | c :: cs, acc =>
      if c.isWhitespace then
        (if acc.isEmpty then splitWordsAux cs [] else String.mk acc.reverse :: splitWordsAux cs [])
      else splitWordsAux cs (c :: acc)

/-- Python `text.split()`. -/
def pySplit (text : String) : List String := splitWordsAux text.data []

/-- Joining a list of lines with single spaces (Python `" ".join`). -/
def joinWithSpaces : List String → String
  | [] => ""
  | [l] => l
  | l :: ls => l ++ " " ++ joinWithSpaces ls

/- ----------------------------------------------------------------
   `wrap_text_to_width` — greedy word wrap (src/widgets.py:25-39,
   src/coversheet.py:24-38; table variant src/create_table.py:31-42).
---------------------------------------------------------------- -/

/-- The body of the greedy wrap loop of `wrap_text_to_width`
(`for w in words[1:]`), carrying the closed lines and the current line. -/
def wrapLoop (sw : String → String → ℚ → ℚ) (font_name : String) (font_size max_width : ℚ) :
    List String → List String → String → List String
  | [], lines, line => lines ++ [line]
  | w :: ws, lines, line =>
      let test := line ++ " " ++ w
      if sw test font_name font_size ≤ max_width then
        wrapLoop sw font_name font_size max_width ws lines test
      else
        wrapLoop sw font_name font_size max_width ws (lines ++ [line]) w

/-- Embedding of `wrap_text_to_width(text, font_name, font_size, max_width)` from
src/widgets.py (identical in src/coversheet.py): greedy word wrap based on
`string_width`; empty input gives an empty line list. -/
def wrap_text_to_width (sw : String → String → ℚ → ℚ)
    (text font_name : String) (font_size max_width : ℚ) : List String :=
  match pySplit text with
  | [] => []
  | w :: ws => wrapLoop sw font_name font_size max_width ws [] w

/-- The src/create_table.py variant of `wrap_text_to_width`: empty input gives
`[""]`; otherwise the same greedy loop. -/
def wrap_text_to_width_ct (sw : String → String → ℚ → ℚ)
    (text font_name : String) (font_size max_width : ℚ) : List String :=
  match pySplit text with
  | [] => [""]
  | w :: ws => wrapLoop sw font_name font_size max_width ws [] w

/- ----------------------------------------------------------------
   `auto_fit_font_size` (src/widgets.py:41-48, src/coversheet.py:40-47).
   The `while size >= min_size: ... size -= 1` loop is modelled with a
   fuel argument that bounds the number of iterations; the fuel chosen in
   `auto_fit_font_size` is exactly the iteration count of the source loop.
---------------------------------------------------------------- -/

/-- The descending search loop of `auto_fit_font_size`. -/
def fitLoop (sw : String → String → ℚ → ℚ) (text font_name : String)
    (max_width min_size : ℚ) : ℕ → ℚ → ℚ
  | 0, _ => min_size
  | fuel + 1, size =>
      if size < min_size then min_size
      else if sw text font_name size ≤ max_width then size
      else fitLoop sw text font_name max_width min_size fuel (size - 1)

/-- Embedding of `auto_fit_font_size(text, font_name, max_width, max_size, min_size)`. -/
def auto_fit_font_size (sw : String → String → ℚ → ℚ) (text font_name : String)
    (max_width max_size min_size : ℚ) : ℚ :=
  fitLoop sw text font_name max_width min_size ((Int.floor (max_size - min_size)).toNat + 1) max_size

/- ----------------------------------------------------------------
   `_autosize_col_widths` (src/paper_preview.py:125-161).
   `_measure_text_width(txt, font, size)` is `stringWidth`, i.e. `sw`.
---------------------------------------------------------------- -/

/-- The two accumulation loops of `_autosize_col_widths` building the
per-column `desired` array before padding/clamping: header widths first,
then body widths (`for j in range(min(ncols, len(row)))`). -/
def desiredRaw (sw : String → String → ℚ → ℚ) (headers : List String)
    (rows : List (List String)) (base_font header_font : String) (font_size : ℚ) : List ℚ :=
  let ncols := max 1 headers.length
  let d0 := List.replicate ncols (0 : ℚ)
  let d1 := headers.enum.foldl
      (fun d p => d.set p.1 (max (d.getD p.1 0) (sw p.2 header_font font_size))) d0
  rows.foldl (fun d row =>
      (List.range (min ncols row.length)).foldl
        (fun d' j => d'.set j (max (d'.getD j 0) (sw (row.getD j "") base_font font_size))) d) d1

/-- Step `desired = [max(min_col, w + 8) for w in desired]` (padding L+R = 8pt,
clamped to the minimum column width). -/
def clampedDesired (sw : String → String → ℚ → ℚ) (headers : List String)
    (rows : List (List String)) (base_font header_font : String)
    (font_size min_col : ℚ) : List ℚ :=
  (desiredRaw sw headers rows base_font header_font font_size).map (fun w => max min_col (w + 8))

/-- Step `widths[-1] += d` on a non-empty list. -/
def addToLast (l : List ℚ) (d : ℚ) : List ℚ :=
  l.set (l.length - 1) (l.getD (l.length - 1) 0 + d)

/-- Embedding of `_autosize_col_widths(headers, rows, max_width, base_font, header_font,
font_size, min_col)`: compute desired widths, clamp/pad, scale down if too
wide, then fix drift on the last column when `|delta| > 0.01`. -/
def _autosize_col_widths (sw : String → String → ℚ → ℚ) (headers : List String)
    (rows : List (List String)) (max_width : ℚ)
    (base_font header_font : String) (font_size min_col : ℚ) : List ℚ :=
  let ncols := max 1 headers.length
  let desired := clampedDesired sw headers rows base_font header_font font_size min_col
  let total := desired.sum
  if total ≤ 0 then List.replicate ncols (max_width / ncols)
  else
    let scale := min 1 (max_width / total)
    let widths := desired.map (fun w => w * scale)
    let delta := max_width - widths.sum
    if 0.01 < |delta| then addToLast widths delta else widths

/- ----------------------------------------------------------------
   `make_fullwidth_then_two_col_template` (src/paper_preview.py:163-193).
   Only the geometry is modelled; the uuid-based id and the onPage
   callback are cosmetic/external.
---------------------------------------------------------------- -/

/-- A reportlab `Frame`: origin and size. -/
structure Frame where
  x : ℚ
  y : ℚ
  width : ℚ
  height : ℚ
deriving DecidableEq, Repr

/-- The geometric fields of a `BaseDocTemplate` used by the template factory. -/
structure DocGeom where
  width : ℚ
  height : ℚ
  leftMargin : ℚ
  bottomMargin : ℚ
deriving DecidableEq, Repr

/-- Embedding of `make_fullwidth_then_two_col_template(doc, top_height, gutter=...)`:
full-width band of height `max(0, top_height)` on top, two columns of width
`(doc.width - gutter)/2` sharing `max(0, doc.height - full_h)` below. The
frames are returned in source order: `[top_full, left_below, right_below]`. -/
def make_fullwidth_then_two_col_template (doc : DocGeom) (top_height gutter : ℚ) : List Frame :=
  let full_w := doc.width
  let full_h := max 0 top_height
  let below_h := max 0 (doc.height - full_h)
  let full_y := doc.bottomMargin + below_h
  let below_y := doc.bottomMargin
  let col_w := (doc.width - gutter) / 2
  let left_x := doc.leftMargin
  let right_x := doc.leftMargin + col_w + gutter
  [{ x := doc.leftMargin, y := full_y, width := full_w, height := full_h },
   { x := left_x, y := below_y, width := col_w, height := below_h },
   { x := right_x, y := below_y, width := col_w, height := below_h }]

/-- Indexing helper for frame lists (total, with a zero default frame). -/
def frameAt (fs : List Frame) (i : ℕ) : Frame :=
  fs.getD i { x := 0, y := 0, width := 0, height := 0 }

/- ----------------------------------------------------------------
   Flowables and the full-width table group
   (src/paper_preview.py:217-287 and the `placement == 'fullwidth'`
   branch of `create_research_paper_pdf`, lines 581-601).
   reportlab's `Flowable.wrap(availWidth, availHeight) -> (w, h)` is the
   external rendering collaborator; it is modelled as a deterministic
   height oracle `wrapH : Flowable → ℚ → ℚ` (spec §6).  A `Spacer(w, h)`
   always occupies exactly its declared height `h`.
---------------------------------------------------------------- -/

/-- The flowables the embedded story branch manipulates.  Styling data that
only affects colours (TableStyle commands, zebra striping) is cosmetic and
not part of the layout geometry. -/
inductive Flowable where
  | paragraph (text : String) (style : String)
  | tableFl (headers : List String) (rows : List (List String)) (colWidths : List ℚ)
  | spacerFl (width height : ℚ)
deriving DecidableEq, Repr

/-- Embedding of `make_table_flowables(headers=..., rows=..., caption=..., doc=...,
col_widths=..., max_width=...)`: builds `[Paragraph(caption)?, Table]`,
autosizing the column widths when none are supplied. -/
def make_table_flowables (sw : String → String → ℚ → ℚ) (headers : List String)
    (rows : List (List String)) (caption : Option String) (docWidth : ℚ)
    (col_widths : Option (List ℚ)) (max_width : Option ℚ) : List Flowable :=
  let total_w := max_width.getD docWidth
  let cw := match col_widths with
    | none => _autosize_col_widths sw headers rows total_w "Times-Roman" "Times-Bold" 9 36
    | some w => w
  let tbl := Flowable.tableFl headers rows cw
  match caption with
  | none => [tbl]
  | some cap => [Flowable.paragraph cap "TableCaption", tbl]

/-- Embedding of `measure_fullwidth_table_group(headers=..., rows=..., caption_text=...,
doc=..., col_widths=..., spacer_after=...)`: wraps the caption and each table
flowable at `doc.width` and sums heights plus `spacer_after`.  Returns
`(caption_para, table_flow, total_h)`.  (The NOSPLIT style applied to the
table is cosmetic for pagination, not geometry.) -/
def measure_fullwidth_table_group (wrapH : Flowable → ℚ → ℚ)
    (sw : String → String → ℚ → ℚ) (headers : List String) (rows : List (List String))
    (caption_text : String) (docWidth : ℚ) (col_widths : Option (List ℚ))
    (spacer_after : ℚ) : Flowable × List Flowable × ℚ :=
  let caption_para := Flowable.paragraph caption_text "TableCaption"
  let table_flow := make_table_flowables sw headers rows none docWidth col_widths (some docWidth)
  let total_h := wrapH caption_para docWidth
      + (table_flow.map (fun fl => wrapH fl docWidth)).sum
      + spacer_after
  (caption_para, table_flow, total_h)

/-- The flowables appended to the story by the `placement == 'fullwidth'`
table branch of `create_research_paper_pdf` (src/paper_preview.py:586-601):
the measured caption, the measured table flowables, and a trailing
`Spacer(1, 0.06 * inch)` (`inch = 72`). -/
def fullwidthTableStory (wrapH : Flowable → ℚ → ℚ) (sw : String → String → ℚ → ℚ)
    (headers : List String) (rows : List (List String)) (caption : String)
    (docWidth : ℚ) (col_widths : Option (List ℚ)) : List Flowable :=
  match measure_fullwidth_table_group wrapH sw headers rows caption docWidth col_widths
      (0.06 * 72) with
  | (cap_para, table_flow, _) => cap_para :: table_flow ++ [Flowable.spacerFl 1 (0.06 * 72)]

/-- The height a flowable actually occupies when placed at width `w`:
its `wrap` height, except that a `Spacer` occupies its declared height. -/
def flowableHeight (wrapH : Flowable → ℚ → ℚ) (w : ℚ) : Flowable → ℚ
  | Flowable.spacerFl _ h => h
  | fl => wrapH fl w

/-- Total vertical extent of a list of flowables placed at width `w`. -/
def storyHeight (wrapH : Flowable → ℚ → ℚ) (w : ℚ) (fls : List Flowable) : ℚ :=
  (fls.map (flowableHeight wrapH w)).sum

/- ----------------------------------------------------------------
   `draw_rounded_table` (src/create_table.py:48-164).
   The canvas is modelled as a list of emitted draw operations.
---------------------------------------------------------------- -/

/-- Primitive canvas operations emitted by the table renderer. -/
inductive DrawOp where
  | clip (x y w h r : ℚ)
  | rect (x y w h : ℚ)
  | roundRect (x y w h r : ℚ)
  | line (x1 y1 x2 y2 : ℚ)
  | text (x y : ℚ) (s : String)
deriving DecidableEq, Repr

/-- A column style entry (`column_styles[key]`).  `colFont`/`font_size`/
`align` carry the source's `.get(..., default)` values; colour fields are
cosmetic and omitted. -/
structure ColStyle where
  width : ℚ
  headerLabel : Option String
  align : String
  colFont : String
  font_size : ℚ
deriving DecidableEq, Repr

/-- The `header_style` of the table config (font/colour fields that only pick
colours are omitted). -/
structure HeaderStyle where
  font : String
  font_size : ℚ
  padding : ℚ
deriving DecidableEq, Repr

/-- The `caption_style` of the table config. -/
structure CaptionStyle where
  font : String
  font_size : ℚ
  align : String
deriving DecidableEq, Repr

/-- The table `config` dictionary of `draw_rounded_table`. -/
structure TableConfig where
  data : List (List (String × String))
  column_styles : List (String × ColStyle)
  width : ℚ
  header_style : HeaderStyle
  cell_padding : ℚ
  radius : ℚ
  caption : Option String
  caption_style : CaptionStyle
deriving DecidableEq, Repr

/-- Lookup `fonts.get(name, fonts["regular"])`: font lookup with fallback to the
registered regular font. -/
def fontOf (fonts : List (String × String)) (name : String) : String :=
  (fonts.lookup name).getD ((fonts.lookup "regular").getD "")

/-- Cell text `str(row_data.get(key, ""))`. -/
def cellStr (row : List (String × String)) (key : String) : String :=
  (row.lookup key).getD ""

/-- One row's height pre-computation (src/create_table.py:76-86): the
maximum wrapped line count over the columns, times `font_size * 1.2`, plus
vertical padding.  NOTE the source's loop-variable leak: the `font_size`
used for the row height is the one left over from the LAST iterated column
style, which this fold reproduces by threading it through the accumulator.
(Python would raise NameError on an empty `column_styles`; the fold's initial
`10` is never used when `column_styles` is non-empty.) -/
def rowHeightOf (sw : String → String → ℚ → ℚ) (fonts : List (String × String))
    (column_styles : List (String × ColStyle)) (cell_padding : ℚ)
    (row : List (String × String)) : ℚ :=
  let ml_fs := column_styles.foldl (fun (acc : ℕ × ℚ) kv =>
      let style := kv.2
      let font := fontOf fonts style.colFont
      let fs := style.font_size
      let col_width := style.width - 2 * cell_padding
      let lines := wrap_text_to_width_ct sw (cellStr row kv.1) font fs col_width
      (max acc.1 lines.length, fs)) (1, 10)
  (ml_fs.1 : ℚ) * (ml_fs.2 * (6 / 5)) + 2 * cell_padding

/-- The pre-computed `row_heights` list of `draw_rounded_table`. -/
def rowHeights (sw : String → String → ℚ → ℚ) (fonts : List (String × String))
    (config : TableConfig) : List ℚ :=
  config.data.map (rowHeightOf sw fonts config.column_styles config.cell_padding)

/-- Height `header_height = header_font_size + 2 * header_padding`. -/
def headerHeightOf (config : TableConfig) : ℚ :=
  config.header_style.font_size + 2 * config.header_style.padding

/-- Python `str.capitalize()` (used for default header labels). -/
def pyCapitalize (s : String) : String :=
  match s.data with
  | [] => ""
  | c :: cs => String.mk (c.toUpper :: cs.map Char.toLower)

/-- The header text loop (src/create_table.py:104-113): one centred header
string per column, the running x advanced by each column width. -/
def headerTextOps (sw : String → String → ℚ → ℚ) (header_font : String)
    (header_font_size header_height y : ℚ) :
    List (String × ColStyle) → ℚ → List DrawOp
  | [], _ => []
  | kv :: rest, current_x =>
      let style := kv.2
      let header_text := style.headerLabel.getD (pyCapitalize kv.1)
      let text_w := sw header_text header_font header_font_size
      let text_y := y - header_height / 2 - header_font_size / 2
      let text_x := current_x + style.width / 2 - text_w / 2
      DrawOp.text text_x text_y header_text ::
        headerTextOps sw header_font header_font_size header_height y rest (current_x + style.width)

/-- The per-cell line loop (src/create_table.py:131-137): draw each wrapped
line, stepping `line_y` down by `font_size * 1.2`. -/
def cellLineOps (sw : String → String → ℚ → ℚ) (font : String) (fs : ℚ) (align : String)
    (current_x colWidth cell_padding : ℚ) : List String → ℚ → List DrawOp
  | [], _ => []
  | line :: ls, line_y =>
      let line_x :=
        if align = "RIGHT" then current_x + colWidth - cell_padding - sw line font fs
        else if align = "CENTER" then current_x + colWidth / 2 - sw line font fs / 2
        else current_x + cell_padding
      DrawOp.text line_x line_y line ::
        cellLineOps sw font fs align current_x colWidth cell_padding ls (line_y - fs * (6 / 5))

/-- The per-column loop inside a row (src/create_table.py:122-138). -/
def rowCellOps (sw : String → String → ℚ → ℚ) (fonts : List (String × String))
    (cell_padding current_y : ℚ) (row : List (String × String)) :
    List (String × ColStyle) → ℚ → List DrawOp
  | [], _ => []
  | kv :: rest, current_x =>
      let style := kv.2
      let font := fontOf fonts style.colFont
      let fs := style.font_size
      let lines := wrap_text_to_width_ct sw (cellStr row kv.1) font fs (style.width - 2 * cell_padding)
      cellLineOps sw font fs style.align.toUpper current_x style.width cell_padding lines
          (current_y - cell_padding - fs)
        ++ rowCellOps sw fonts cell_padding current_y row rest (current_x + style.width)

/-- The row-drawing loop (src/create_table.py:117-141): alternate-row fill,
cell text, bottom separator line, then advance `current_y` by the
pre-computed row height.  Returns the emitted ops and the final `current_y`. -/
def drawRows (sw : String → String → ℚ → ℚ) (fonts : List (String × String))
    (column_styles : List (String × ColStyle)) (cell_padding x table_width : ℚ) :
    List (List (String × String)) → List ℚ → ℕ → ℚ → List DrawOp × ℚ
  | [], _, _, current_y => ([], current_y)
  | _ :: _, [], _, current_y => ([], current_y)
  | row :: rest, row_h :: rhs, i, current_y =>
      let altOps := if i % 2 = 1 then [DrawOp.rect x (current_y - row_h) table_width row_h] else []
      let cOps := rowCellOps sw fonts cell_padding current_y row column_styles x
      let sep := DrawOp.line x (current_y - row_h) (x + table_width) (current_y - row_h)
      let res := drawRows sw fonts column_styles cell_padding x table_width rest rhs (i + 1)
          (current_y - row_h)
      (altOps ++ cOps ++ [sep] ++ res.1, res.2)

/-- The caption line loop (src/create_table.py:155-164). -/
def captionLineOps (sw : String → String → ℚ → ℚ) (font : String) (fs : ℚ) (align : String)
    (x table_width : ℚ) : List String → ℚ → List DrawOp
  | [], _ => []
  | line :: ls, caption_y =>
      let caption_x :=
        if align = "RIGHT" then x + table_width - sw line font fs
        else if align = "CENTER" then x + table_width / 2 - sw line font fs / 2
        else x
      DrawOp.text caption_x caption_y line ::
        captionLineOps sw font fs align x table_width ls (caption_y - fs * (6 / 5))

/-- Embedding of `draw_rounded_table(c, x, y, config, fonts)`: emit the clip path,
backgrounds, header, rows and caption in source order. -/
def draw_rounded_table (sw : String → String → ℚ → ℚ) (fonts : List (String × String))
    (x y : ℚ) (config : TableConfig) : List DrawOp :=
  let table_width := config.width
  let header_font := fontOf fonts config.header_style.font
  let header_font_size := config.header_style.font_size
  let header_height := headerHeightOf config
  let row_hs := rowHeights sw fonts config
  let total_table_height := header_height + row_hs.sum
  let bgOps := [DrawOp.clip x (y - total_table_height) table_width total_table_height config.radius,
                DrawOp.rect x (y - total_table_height) table_width total_table_height,
                DrawOp.roundRect x (y - total_table_height) table_width total_table_height config.radius]
  let hdrOps := DrawOp.rect x (y - header_height) table_width header_height ::
      headerTextOps sw header_font header_font_size header_height y config.column_styles x
  let rowsRes := drawRows sw fonts config.column_styles config.cell_padding x table_width
      config.data row_hs 0 (y - header_height)
  let capOps := match config.caption with
    | none => []
    | some cap =>
        let cfont := fontOf fonts config.caption_style.font
        let cfs := config.caption_style.font_size
        let clines := wrap_text_to_width_ct sw cap cfont cfs table_width
        captionLineOps sw cfont cfs config.caption_style.align.toUpper x table_width clines
          (y - total_table_height - 12)
  bgOps ++ hdrOps ++ rowsRes.1 ++ capOps

/-- Extract the y-coordinate of each `line` operation (the row separators are
the only `c.line` calls `draw_rounded_table` makes). -/
def lineY : DrawOp → Option ℚ
  | DrawOp.line _ y1 _ _ => some y1
  | _ => none

/-- All separator-line y-coordinates, in emission order. -/
def sepLineYs (ops : List DrawOp) : List ℚ := ops.filterMap lineY

/- ----------------------------------------------------------------
   `to_roman` (src/paper_preview.py:26-40).
   The `while n >= val` loop is modelled with a fuel argument: each
   iteration subtracts `val ≥ 1`, so `n + 1` units of fuel always suffice.
   The raised `ValueError` is modelled with `Except.error`.
---------------------------------------------------------------- -/

/-- The numeral table of `to_roman`. -/
def romanNumerals : List (ℕ × String) :=
  [(1000, "M"), (900, "CM"), (500, "D"), (400, "CD"),
   (100, "C"), (90, "XC"), (50, "L"), (40, "XL"),
   (10, "X"), (9, "IX"), (5, "V"), (4, "IV"), (1, "I")]

/-- Loop `while n >= val: out.append(sym); n -= val`, returning the appended
string and the remaining `n`. -/
def romanLoop (val : ℕ) (sym : String) : ℕ → ℕ → String × ℕ
  | 0, n => ("", n)
  | fuel + 1, n =>
      if val ≤ n then
        match romanLoop val sym fuel (n - val) with
        | (s, r) => (sym ++ s, r)
      else ("", n)

/-- Embedding of `to_roman(n)`: raises `ValueError` unless `0 < n < 4000`, otherwise
greedy subtraction over the numeral table. -/
def to_roman (n : ℤ) : Except String String :=
  if ¬(0 < n ∧ n < 4000) then
    Except.error "Number out of range (must be 1–3999)"
  else
    Except.ok (romanNumerals.foldl (fun (acc : String × ℕ) p =>
      match romanLoop p.1 p.2 (acc.2 + 1) acc.2 with
      | (s, r) => (acc.1 ++ s, r)) ("", n.toNat)).1

/- ----------------------------------------------------------------
   `link_citations` (src/paper_preview.py:43-73).
   The regex `\[([0-9,\-–—\s]+)\]` is modelled by a character scanner:
   a match is a `[`, a non-empty maximal run of characters of the class,
   then `]` (the class excludes both brackets, so regex greediness
   coincides with the maximal run).  `re.sub` replaces non-overlapping
   matches left to right.  Python `\s` is modelled by `Char.isWhitespace`.
---------------------------------------------------------------- -/

/-- The character class `[0-9,\-–—\s]`. -/
def isCiteChar (c : Char) : Bool :=
  c.isDigit || c = ',' || c = '-' || c = '–' || c = '—' || c.isWhitespace

/-- Decimal value of a digit run. -/
def digitsToNat (ds : List Char) : ℕ :=
  ds.foldl (fun acc c => 10 * acc + (c.toNat - '0'.toNat)) 0

/-- Python `str.strip()`: drop whitespace from both ends. -/
def trimChars (l : List Char) : List Char :=
  ((l.dropWhile Char.isWhitespace).reverse.dropWhile Char.isWhitespace).reverse

/-- Python `s.split(',')` (no maxsplit): always at least one piece. -/
def splitOnComma : List Char → List (List Char)
  | [] => [[]]
  | c :: cs =>
      if c = ',' then [] :: splitOnComma cs
      else
        match splitOnComma cs with
        | [] => [[c]]
        | p :: ps => (c :: p) :: ps

/-- Split `norm.split('-', 1)`: split at the first `-` only; `none` when there is
no dash (the tuple unpacking in the source then raises and the token is kept
literal). -/
def splitFirstDash : List Char → Option (List Char × List Char)
  | [] => none
  | c :: cs =>
      if c = '-' then some ([], cs)
      else
        match splitFirstDash cs with
        | none => none
        | some ab => some (c :: ab.1, ab.2)

/-- Python `int(s)` on a token: strip, then an optional sign followed by one
or more digits; anything else raises (modelled by `none`). -/
def pyInt? (s : List Char) : Option ℤ :=
  match trimChars s with
  | [] => none
  | '-' :: ds =>
      if ds ≠ [] ∧ ds.all Char.isDigit then some (-(digitsToNat ds : ℤ)) else none
  | '+' :: ds =>
      if ds ≠ [] ∧ ds.all Char.isDigit then some ((digitsToNat ds : ℤ)) else none
  | ds =>
      if ds.all Char.isDigit then some ((digitsToNat ds : ℤ)) else none

/-- Python `range(a, b + step, step)` for `step = 1 if a <= b else -1`. -/
def citeNums (a b : ℤ) : List ℤ :=
  if a ≤ b then (List.range (b - a + 1).toNat).map (fun k => a + k)
  else (List.range (a - b + 1).toNat).map (fun k => a - k)

/-- One `<link href="#ref_N"><font color="...">N</font></link>` fragment. -/
def linkToken (link_color : String) (n : ℤ) : String :=
  "<link href=\"#ref_" ++ toString n ++ "\"><font color=\"" ++ link_color ++ "\">"
    ++ toString n ++ "</font></link>"

/-- Python `sep.join(pieces)` over character lists. -/
def joinChars (sep : List Char) : List (List Char) → List Char
  | [] => []
  | [p] => p
  | p :: ps => p ++ sep ++ joinChars sep ps

/-- The `repl` callback of `link_citations`, applied to the text between the
brackets (as a character list). -/
def citeRepl (link_color : String) (inside : List Char) : List Char :=
  let parts := ((splitOnComma inside).map trimChars).filter (fun p => p ≠ [])
  let tokens := parts.map (fun part =>
    if part.contains '-' || part.contains '–' || part.contains '—' then
      let norm := (part.map (fun c => if c = '–' then '-' else c)).map
        (fun c => if c = '—' then '-' else c)
      match splitFirstDash norm with
      | some ab =>
          match pyInt? ab.1, pyInt? ab.2 with
          | some a, some b =>
              joinChars ['–'] ((citeNums a b).map (fun n => (linkToken link_color n).data))
          | _, _ => part
      | none => part
    else
      match pyInt? part with
      | some n => (linkToken link_color n).data
      | none => part)
  '[' :: joinChars [',', ' '] tokens ++ [']']

/-- Left-to-right scan applying `citeRepl` to each regex match.  `fuel` only
bounds the recursion; `text.length` units always suffice because every
recursive call drops at least one character. -/
def scanCites (link_color : String) : ℕ → List Char → List Char
  | 0, l => l
  | _, [] => []
  | fuel + 1, c :: rest =>
      if c = '[' then
        let run := rest.takeWhile isCiteChar
        match rest.dropWhile isCiteChar with
        | ']' :: tail =>
            if run.isEmpty then c :: scanCites link_color fuel rest
            else citeRepl link_color run ++ scanCites link_color fuel tail
        | _ => c :: scanCites link_color fuel rest
      else c :: scanCites link_color fuel rest

/-- Embedding of `link_citations(text, link_color="#163b8a")`. -/
def link_citations (text : String) : String :=
  String.mk (scanCites "#163b8a" text.data.length text.data)

/-- The ordered list of `#ref_N` targets occurring in a rendered string:
scan for the literal `#ref_` and read the digit run after it. -/
def extractRefsAux : ℕ → List Char → List ℕ
  | 0, _ => []
  | _ + 1, [] => []
  | fuel + 1, c :: rest =>
      if ("#ref_".data).isPrefixOf (c :: rest) then
        let after := (c :: rest).drop 5
        digitsToNat (after.takeWhile Char.isDigit) ::
          extractRefsAux fuel (after.dropWhile Char.isDigit)
      else extractRefsAux fuel rest

/-- All reference targets of a rendered string, in order. -/
def extractRefTargets (s : String) : List ℕ := extractRefsAux s.data.length s.data

/- ----------------------------------------------------------------
   Concrete width oracles used by witnesses and counterexamples.
---------------------------------------------------------------- -/

/-- A width oracle that measures every string as 0. -/
def zeroSW : String → String → ℚ → ℚ := fun _ _ _ => 0

/-- A width oracle giving width 156 to the header `"b"` and 0 otherwise. -/
def colSW : String → String → ℚ → ℚ := fun t _ _ => if t = "b" then 156 else 0

/-- A width oracle whose single-line width equals the font size. -/
def sizeSW : String → String → ℚ → ℚ := fun _ _ size => size

/- ----------------------------------------------------------------
   Helper lemmas.
---------------------------------------------------------------- -/

theorem foldl_length_eq {α : Type} (f : List ℚ → α → List ℚ)
    (hf : ∀ d a, (f d a).length = d.length) (xs : List α) (d : List ℚ) :
    (xs.foldl f d).length = d.length := by
  induction xs generalizing d with
  | nil => rfl
  | cons x xs ih => rw [List.foldl_cons, ih, hf]

theorem desiredRaw_length (sw : String → String → ℚ → ℚ) (headers : List String)
    (rows : List (List String)) (base_font header_font : String) (font_size : ℚ) :
    (desiredRaw sw headers rows base_font header_font font_size).length = max 1 headers.length := by
  unfold desiredRaw
  rw [foldl_length_eq, foldl_length_eq, List.length_replicate]
  · intro d p; simp
  · intro d row
    rw [foldl_length_eq]
    intro d' j; simp

theorem clampedDesired_length (sw : String → String → ℚ → ℚ) (headers : List String)
    (rows : List (List String)) (base_font header_font : String) (font_size min_col : ℚ) :
    (clampedDesired sw headers rows base_font header_font font_size min_col).length
      = max 1 headers.length := by
  rw [clampedDesired, List.length_map, desiredRaw_length]

theorem clampedDesired_mem_ge (sw : String → String → ℚ → ℚ) (headers : List String)
    (rows : List (List String)) (base_font header_font : String) (font_size min_col : ℚ)
    (w : ℚ) (hw : w ∈ clampedDesired sw headers rows base_font header_font font_size min_col) :
    min_col ≤ w := by
  rw [clampedDesired, List.mem_map] at hw
  obtain ⟨u, _, rfl⟩ := hw
  exact le_max_left _ _

theorem addToLast_length (l : List ℚ) (d : ℚ) : (addToLast l d).length = l.length := by
  simp [addToLast]

theorem addToLast_cons_cons (a b : ℚ) (t : List ℚ) (d : ℚ) :
    addToLast (a :: b :: t) d = a :: addToLast (b :: t) d := by
  simp [addToLast]

theorem addToLast_sum (l : List ℚ) (d : ℚ) (h : l ≠ []) :
    (addToLast l d).sum = l.sum + d := by
  induction l with
  | nil => exact absurd rfl h
  | cons a t ih =>
    cases t with
    | nil => simp [addToLast]
    | cons b t' =>
      rw [addToLast_cons_cons, List.sum_cons, List.sum_cons, ih (by simp)]
      ring

theorem getD_last_mem (l : List ℚ) (h : l ≠ []) : l.getD (l.length - 1) 0 ∈ l := by
  have hlt : l.length - 1 < l.length := Nat.sub_lt (List.length_pos.2 h) one_pos
  rw [List.getD_eq_getElem _ _ hlt]
  exact List.getElem_mem _

theorem sum_map_mul_const (l : List ℚ) (c : ℚ) :
    (l.map (fun w => w * c)).sum = l.sum * c := by
  induction l with
  | nil => simp
  | cons a t ih => simp [ih, add_mul]

/- ----------------------------------------------------------------
   Claim theorems: column-width allocator.
---------------------------------------------------------------- -/

/-- Claim C1: for every non-empty header list, any rows, and any
targetWidth > 0, the widths returned by `_autosize_col_widths` sum to
targetWidth to within 0.01 units.  (The result holds over exact rational
arithmetic, which is how the source's float arithmetic is modelled.) -/
theorem autosize_col_widths_sum_spec (sw : String → String → ℚ → ℚ)
    (headers : List String) (rows : List (List String)) (max_width : ℚ)
    (base_font header_font : String) (font_size min_col : ℚ)
    (hne : headers ≠ []) (hpos : 0 < max_width) :
    |max_width - (_autosize_col_widths sw headers rows max_width
        base_font header_font font_size min_col).sum| ≤ 0.01 := by
  have hnc : (0:ℚ) < (max 1 headers.length : ℕ) := by
    have : 0 < max 1 headers.length := Nat.lt_of_lt_of_le one_pos (le_max_left _ _)
    exact_mod_cast this
  have hlen : (clampedDesired sw headers rows base_font header_font font_size min_col).length
      = max 1 headers.length :=
    clampedDesired_length sw headers rows base_font header_font font_size min_col
  have hDne : clampedDesired sw headers rows base_font header_font font_size min_col ≠ [] := by
    intro h
    rw [h] at hlen
    simp at hlen
    omega
  simp only [_autosize_col_widths]
  split_ifs with h1 h2
  · rw [List.sum_replicate, nsmul_eq_mul, mul_comm,
      div_mul_cancel₀ _ (ne_of_gt hnc)]
    norm_num
  · have hwne : (clampedDesired sw headers rows base_font header_font font_size
        min_col).map (fun w => w * min 1 (max_width /
          (clampedDesired sw headers rows base_font header_font font_size min_col).sum)) ≠ [] := by
      simpa using hDne
    rw [addToLast_sum _ _ hwne]
    norm_num
  · exact le_of_not_lt h2

/-- Witness for C1 at a concrete input (spec §8 scenario 2). -/
theorem autosize_col_widths_sum_spec_witness :
    (["ID", "Name"] : List String) ≠ [] ∧ (0:ℚ) < 300 ∧
    |300 - (_autosize_col_widths zeroSW ["ID", "Name"]
        [["SKU-1", "A very long product name"]] 300 "Times-Roman" "Times-Bold" 9 50).sum| ≤ 0.01 :=
  ⟨by simp, by norm_num,
    autosize_col_widths_sum_spec zeroSW ["ID", "Name"] [["SKU-1", "A very long product name"]]
      300 "Times-Roman" "Times-Bold" 9 50 (by simp) (by norm_num)⟩

/-- Claim C10: with an empty header list the allocator is total and treats
the input as one column (`ncols = max(1, len(headers))`): it returns exactly
one width, for any rows and parameters (no error, no division by zero — the
one divisor used, `ncols` or a positive `total`, is non-zero). -/
theorem autosize_col_widths_empty_headers_spec (sw : String → String → ℚ → ℚ)
    (rows : List (List String)) (max_width : ℚ)
    (base_font header_font : String) (font_size min_col : ℚ) :
    (_autosize_col_widths sw [] rows max_width base_font header_font font_size min_col).length
      = 1 := by
  have hlen : (clampedDesired sw [] rows base_font header_font font_size min_col).length
      = max 1 ([] : List String).length :=
    clampedDesired_length sw [] rows base_font header_font font_size min_col
  simp only [_autosize_col_widths]
  split_ifs with h1 h2
  · simp
  · rw [addToLast_length, List.length_map, hlen]
    simp
  · rw [List.length_map, hlen]
    simp

/-- Counterexample to claim C5: headers `["a"]` (desired width clamps to 36),
targetWidth 100.  The clamped desired widths sum to 36 ≤ 100, yet the
allocator does not return them unchanged — the drift-fix stretches the last
column by the full residual, returning `[100]`. -/
theorem autosize_no_stretch_cex :
    (clampedDesired zeroSW ["a"] [] "Times-Roman" "Times-Bold" 9 36).sum ≤ (100:ℚ) ∧
    _autosize_col_widths zeroSW ["a"] [] 100 "Times-Roman" "Times-Bold" 9 36
      ≠ clampedDesired zeroSW ["a"] [] "Times-Roman" "Times-Bold" 9 36 := by
  have hc : clampedDesired zeroSW ["a"] [] "Times-Roman" "Times-Bold" 9 36 = [36] := by
    simp [clampedDesired, desiredRaw, zeroSW, List.enum, List.enumFrom,
      List.foldl_cons, List.foldl_nil, List.set, List.getD]
    norm_num
  have ha : _autosize_col_widths zeroSW ["a"] [] 100 "Times-Roman" "Times-Bold" 9 36 = [100] := by
    simp [_autosize_col_widths, clampedDesired, desiredRaw, zeroSW, List.enum, List.enumFrom,
      List.foldl_cons, List.foldl_nil, List.set, List.getD, addToLast]
    norm_num
  rw [hc, ha]
  constructor
  · norm_num
  · simp

/-- Claim C5, amended: when the clamped desired widths have positive sum
`total ≤ targetWidth`, the allocator keeps every width except possibly the
last: if the residual `targetWidth - total` is within the 0.01 tolerance the
desired widths are returned unchanged, otherwise the last width is enlarged
by the whole residual (stretching the table to fill the target). -/
theorem autosize_underfull_spec (sw : String → String → ℚ → ℚ)
    (headers : List String) (rows : List (List String)) (max_width : ℚ)
    (base_font header_font : String) (font_size min_col : ℚ)
    (htot : 0 < (clampedDesired sw headers rows base_font header_font font_size min_col).sum)
    (hle : (clampedDesired sw headers rows base_font header_font font_size min_col).sum
        ≤ max_width) :
    (max_width - (clampedDesired sw headers rows base_font header_font font_size min_col).sum
        ≤ 0.01 →
      _autosize_col_widths sw headers rows max_width base_font header_font font_size min_col
        = clampedDesired sw headers rows base_font header_font font_size min_col)
    ∧ (0.01 < max_width
          - (clampedDesired sw headers rows base_font header_font font_size min_col).sum →
      _autosize_col_widths sw headers rows max_width base_font header_font font_size min_col
        = addToLast (clampedDesired sw headers rows base_font header_font font_size min_col)
            (max_width
              - (clampedDesired sw headers rows base_font header_font font_size min_col).sum)) := by
  have hscale : min 1 (max_width /
      (clampedDesired sw headers rows base_font header_font font_size min_col).sum) = 1 :=
    min_eq_left ((one_le_div htot).2 hle)
  have hmap : (clampedDesired sw headers rows base_font header_font font_size min_col).map
      (fun w => w * min 1 (max_width /
        (clampedDesired sw headers rows base_font header_font font_size min_col).sum))
      = clampedDesired sw headers rows base_font header_font font_size min_col := by
    rw [hscale]; simp
  simp only [_autosize_col_widths, hmap, if_neg (not_le.2 htot)]
  have hd : 0 ≤ max_width
      - (clampedDesired sw headers rows base_font header_font font_size min_col).sum := by
    linarith
  rw [abs_of_nonneg hd]
  constructor
  · intro h
    rw [if_neg (not_lt.2 h)]
  · intro h
    rw [if_pos h]

/-- Witness for the amended C5 at a concrete input: desired `[36]`,
targetWidth 100, residual 64 > 0.01, so the result is `addToLast [36] 64`. -/
theorem autosize_underfull_spec_witness :
    (0:ℚ) < (clampedDesired zeroSW ["a"] [] "Times-Roman" "Times-Bold" 9 36).sum ∧
    (clampedDesired zeroSW ["a"] [] "Times-Roman" "Times-Bold" 9 36).sum ≤ (100:ℚ) ∧
    ((100 - (clampedDesired zeroSW ["a"] [] "Times-Roman" "Times-Bold" 9 36).sum ≤ 0.01 →
      _autosize_col_widths zeroSW ["a"] [] 100 "Times-Roman" "Times-Bold" 9 36
        = clampedDesired zeroSW ["a"] [] "Times-Roman" "Times-Bold" 9 36)
    ∧ (0.01 < 100 - (clampedDesired zeroSW ["a"] [] "Times-Roman" "Times-Bold" 9 36).sum →
      _autosize_col_widths zeroSW ["a"] [] 100 "Times-Roman" "Times-Bold" 9 36
        = addToLast (clampedDesired zeroSW ["a"] [] "Times-Roman" "Times-Bold" 9 36)
            (100 - (clampedDesired zeroSW ["a"] [] "Times-Roman" "Times-Bold" 9 36).sum))) := by
  have hc : clampedDesired zeroSW ["a"] [] "Times-Roman" "Times-Bold" 9 36 = [36] := by
    simp [clampedDesired, desiredRaw, zeroSW, List.enum, List.enumFrom,
      List.foldl_cons, List.foldl_nil, List.set, List.getD]
    norm_num
  refine ⟨by rw [hc]; norm_num, by rw [hc]; norm_num, ?_⟩
  exact autosize_underfull_spec zeroSW ["a"] [] 100 "Times-Roman" "Times-Bold" 9 36
    (by rw [hc]; norm_num) (by rw [hc]; norm_num)

/-- Counterexample to claim C6: two columns, min width 36, targetWidth 100
(so columns × minimum = 72 ≤ 100, outside the claim's only allowed
exception), one very wide column (desired `[36, 164]`).  Uniform
down-scaling by 100/200 returns `[18, 82]`: the first width falls below the
minimum although `ncols * min_col ≤ targetWidth`. -/
theorem autosize_min_width_cex :
    2 * 36 ≤ (100:ℚ) ∧
    ¬ (∀ w ∈ _autosize_col_widths colSW ["a", "b"] [] 100 "Times-Roman" "Times-Bold" 9 36,
        (36:ℚ) ≤ w) := by
  have ha : _autosize_col_widths colSW ["a", "b"] [] 100 "Times-Roman" "Times-Bold" 9 36
      = [18, 82] := by
    simp [_autosize_col_widths, clampedDesired, desiredRaw, colSW, List.enum, List.enumFrom,
      List.foldl_cons, List.foldl_nil, List.set, List.getD, addToLast]
    norm_num
  refine ⟨by norm_num, ?_⟩
  rw [ha]
  intro hall
  have := hall 18 (by simp)
  linarith

/-- Claim C6, amended: every returned width is at least `min_col` whenever
the clamped desired widths have positive sum at most `targetWidth`; when
their sum exceeds `targetWidth` the widths are scaled by
`targetWidth / total`, so each is only guaranteed to be at least
`min_col * (targetWidth / total)` — which can lie below `min_col` even when
`ncols * min_col ≤ targetWidth`. -/
theorem autosize_min_width_spec (sw : String → String → ℚ → ℚ)
    (headers : List String) (rows : List (List String)) (max_width : ℚ)
    (base_font header_font : String) (font_size min_col : ℚ)
    (htot : 0 < (clampedDesired sw headers rows base_font header_font font_size min_col).sum)
    (hmw : 0 < max_width) :
    ((clampedDesired sw headers rows base_font header_font font_size min_col).sum ≤ max_width →
      ∀ w ∈ _autosize_col_widths sw headers rows max_width base_font header_font font_size
          min_col, min_col ≤ w)
    ∧ (max_width
          < (clampedDesired sw headers rows base_font header_font font_size min_col).sum →
      ∀ w ∈ _autosize_col_widths sw headers rows max_width base_font header_font font_size
          min_col, min_col * (max_width /
            (clampedDesired sw headers rows base_font header_font font_size min_col).sum)
          ≤ w) := by
  have hDne : clampedDesired sw headers rows base_font header_font font_size min_col ≠ [] := by
    intro h
    rw [h] at htot
    simp at htot
  constructor
  · intro hle w hw
    have hscale : min 1 (max_width /
        (clampedDesired sw headers rows base_font header_font font_size min_col).sum) = 1 :=
      min_eq_left ((one_le_div htot).2 hle)
    have hmap : (clampedDesired sw headers rows base_font header_font font_size min_col).map
        (fun w => w * min 1 (max_width /
          (clampedDesired sw headers rows base_font header_font font_size min_col).sum))
        = clampedDesired sw headers rows base_font header_font font_size min_col := by
      rw [hscale]; simp
    rw [_autosize_col_widths] at hw
    simp only [if_neg (not_le.2 htot), hmap] at hw
    split_ifs at hw with hdrift
    · rcases List.mem_or_eq_of_mem_set hw with hmem | heq
      · exact clampedDesired_mem_ge sw headers rows base_font header_font font_size min_col w hmem
      · have hlast : (clampedDesired sw headers rows base_font header_font font_size
            min_col).getD ((clampedDesired sw headers rows base_font header_font font_size
              min_col).length - 1) 0
            ∈ clampedDesired sw headers rows base_font header_font font_size min_col :=
          getD_last_mem _ hDne
        have hge := clampedDesired_mem_ge sw headers rows base_font header_font font_size
          min_col _ hlast
        rw [heq]
        linarith
    · exact clampedDesired_mem_ge sw headers rows base_font header_font font_size min_col w hw
  · intro hlt w hw
    have hscale : min 1 (max_width /
        (clampedDesired sw headers rows base_font header_font font_size min_col).sum)
        = max_width /
          (clampedDesired sw headers rows base_font header_font font_size min_col).sum :=
      min_eq_right (le_of_lt ((div_lt_one htot).2 hlt))
    have hsum : ((clampedDesired sw headers rows base_font header_font font_size min_col).map
        (fun w => w * (max_width /
          (clampedDesired sw headers rows base_font header_font font_size min_col).sum))).sum
        = max_width := by
      rw [sum_map_mul_const, mul_comm, div_mul_cancel₀ _ (ne_of_gt htot)]
    rw [_autosize_col_widths] at hw
    simp only [if_neg (not_le.2 htot), hscale, hsum] at hw
    rw [if_neg (by norm_num)] at hw
    rw [List.mem_map] at hw
    obtain ⟨u, hu, rfl⟩ := hw
    have hge := clampedDesired_mem_ge sw headers rows base_font header_font font_size min_col
      u hu
    have hsc : 0 ≤ max_width /
        (clampedDesired sw headers rows base_font header_font font_size min_col).sum :=
      div_nonneg (le_of_lt hmw) (le_of_lt htot)
    exact mul_le_mul_of_nonneg_right hge hsc

/-- Witness for the amended C6 at a concrete input (the counterexample
input: desired `[36, 164]`, targetWidth 100). -/
theorem autosize_min_width_spec_witness :
    (0:ℚ) < (clampedDesired colSW ["a", "b"] [] "Times-Roman" "Times-Bold" 9 36).sum ∧
    (0:ℚ) < 100 ∧
    (((clampedDesired colSW ["a", "b"] [] "Times-Roman" "Times-Bold" 9 36).sum ≤ 100 →
      ∀ w ∈ _autosize_col_widths colSW ["a", "b"] [] 100 "Times-Roman" "Times-Bold" 9 36,
        (36:ℚ) ≤ w)
    ∧ (100 < (clampedDesired colSW ["a", "b"] [] "Times-Roman" "Times-Bold" 9 36).sum →
      ∀ w ∈ _autosize_col_widths colSW ["a", "b"] [] 100 "Times-Roman" "Times-Bold" 9 36,
        36 * ((100:ℚ) /
          (clampedDesired colSW ["a", "b"] [] "Times-Roman" "Times-Bold" 9 36).sum) ≤ w)) := by
  have hc : clampedDesired colSW ["a", "b"] [] "Times-Roman" "Times-Bold" 9 36 = [36, 164] := by
    simp [clampedDesired, desiredRaw, colSW, List.enum, List.enumFrom,
      List.foldl_cons, List.foldl_nil, List.set, List.getD]
    norm_num
  refine ⟨by rw [hc]; norm_num, by norm_num, ?_⟩
  exact autosize_min_width_spec colSW ["a", "b"] [] 100 "Times-Roman" "Times-Bold" 9 36
    (by rw [hc]; norm_num) (by norm_num)

/- ----------------------------------------------------------------
   Claim theorems: dynamic page template.
---------------------------------------------------------------- -/

/-- Counterexample to claim C3: with content height 648 and band height
700 > 648, the template's band frame keeps height 700 (it is clamped below
by 0 but not above by the content height) and the column frames get height
0, so the band height plus the column height is 700, not the content height
648. -/
theorem template_heights_sum_cex :
    (make_fullwidth_then_two_col_template
        { width := 504, height := 648, leftMargin := 54, bottomMargin := 72 } 700 18).map
      Frame.height = [700, 0, 0] ∧
    (frameAt (make_fullwidth_then_two_col_template
        { width := 504, height := 648, leftMargin := 54, bottomMargin := 72 } 700 18) 0).height
      + (frameAt (make_fullwidth_then_two_col_template
        { width := 504, height := 648, leftMargin := 54, bottomMargin := 72 } 700 18) 1).height
      ≠ (648 : ℚ) := by
  have h : make_fullwidth_then_two_col_template
      { width := 504, height := 648, leftMargin := 54, bottomMargin := 72 } 700 18
      = [{ x := 54, y := 72, width := 504, height := 700 },
         { x := 54, y := 72, width := 243, height := 0 },
         { x := 315, y := 72, width := 243, height := 0 }] := by
    simp [make_fullwidth_then_two_col_template]
    norm_num
  rw [h]
  constructor
  · simp [frameAt]
  · simp [frameAt]

/-- Claim C3, amended: for a page with non-negative content width/height and
a gutter at most the content width, every frame of
`make_fullwidth_then_two_col_template` has non-negative width and height and
the two lower frames each have width `(doc.width - gutter)/2`; the band
height plus the column height equals the page content height whenever the
requested band height is at most the content height (for larger bands the
band frame keeps the oversized height and the columns get height 0, so the
sum exceeds `doc.height`). -/
theorem template_frames_spec (doc : DocGeom) (top_height gutter : ℚ)
    (hw : 0 ≤ doc.width) (hg : gutter ≤ doc.width) (hh : 0 ≤ doc.height) :
    (∀ f ∈ make_fullwidth_then_two_col_template doc top_height gutter,
        0 ≤ f.width ∧ 0 ≤ f.height)
    ∧ (frameAt (make_fullwidth_then_two_col_template doc top_height gutter) 1).width
        = (doc.width - gutter) / 2
    ∧ (frameAt (make_fullwidth_then_two_col_template doc top_height gutter) 2).width
        = (doc.width - gutter) / 2
    ∧ (top_height ≤ doc.height →
        (frameAt (make_fullwidth_then_two_col_template doc top_height gutter) 0).height
          + (frameAt (make_fullwidth_then_two_col_template doc top_height gutter) 1).height
          = doc.height) := by
  have hcol : (0:ℚ) ≤ (doc.width - gutter) / 2 := by linarith
  refine ⟨?_, ?_, ?_, ?_⟩
  · intro f hf
    simp only [make_fullwidth_then_two_col_template, List.mem_cons, List.mem_singleton] at hf
    rcases hf with rfl | rfl | rfl | hf
    · exact ⟨hw, le_max_left _ _⟩
    · exact ⟨hcol, le_max_left _ _⟩
    · exact ⟨hcol, le_max_left _ _⟩
    · exact absurd hf (List.not_mem_nil f)
  · simp [make_fullwidth_then_two_col_template, frameAt]
  · simp [make_fullwidth_then_two_col_template, frameAt]
  · intro hband
    simp only [make_fullwidth_then_two_col_template, frameAt, List.getD]
    rcases le_or_lt 0 top_height with h0 | h0
    · rw [max_eq_right h0]
      have : (0:ℚ) ≤ doc.height - top_height := by linarith
      simp [max_eq_right this]
    · rw [max_eq_left (le_of_lt h0)]
      simp [max_eq_right hh]

/-- Witness for the amended C3 (spec §8 scenario 4: band 400, content height
648 ≥ 400, gutter 18). -/
theorem template_frames_spec_witness :
    (0:ℚ) ≤ 504 ∧ (18:ℚ) ≤ 504 ∧ (0:ℚ) ≤ 648 ∧
    ((∀ f ∈ make_fullwidth_then_two_col_template
        { width := 504, height := 648, leftMargin := 54, bottomMargin := 72 } 400 18,
        0 ≤ f.width ∧ 0 ≤ f.height)
    ∧ (frameAt (make_fullwidth_then_two_col_template
        { width := 504, height := 648, leftMargin := 54, bottomMargin := 72 } 400 18) 1).width
        = (504 - 18) / 2
    ∧ (frameAt (make_fullwidth_then_two_col_template
        { width := 504, height := 648, leftMargin := 54, bottomMargin := 72 } 400 18) 2).width
        = (504 - 18) / 2
    ∧ ((400:ℚ) ≤ 648 →
        (frameAt (make_fullwidth_then_two_col_template
          { width := 504, height := 648, leftMargin := 54, bottomMargin := 72 } 400 18) 0).height
          + (frameAt (make_fullwidth_then_two_col_template
            { width := 504, height := 648, leftMargin := 54, bottomMargin := 72 } 400 18) 1).height
          = 648)) :=
  ⟨by norm_num, by norm_num, by norm_num,
    template_frames_spec { width := 504, height := 648, leftMargin := 54, bottomMargin := 72 }
      400 18 (by norm_num) (by norm_num) (by norm_num)⟩

/- ----------------------------------------------------------------
   Claim theorems: greedy word wrap.
---------------------------------------------------------------- -/

theorem wrapLoop_acc (sw : String → String → ℚ → ℚ) (font_name : String)
    (font_size max_width : ℚ) (ws : List String) :
    ∀ (lines : List String) (line : String),
      wrapLoop sw font_name font_size max_width ws lines line
        = lines ++ wrapLoop sw font_name font_size max_width ws [] line := by
  induction ws with
  | nil => intro lines line; simp [wrapLoop]
  | cons w ws ih =>
    intro lines line
    simp only [wrapLoop]
    split_ifs with hfit
    · exact ih lines (line ++ " " ++ w)
    · rw [ih (lines ++ [line]) w, List.nil_append, ih [line] w, List.append_assoc]

theorem wrapLoop_ne_nil (sw : String → String → ℚ → ℚ) (font_name : String)
    (font_size max_width : ℚ) (ws : List String) :
    ∀ line : String, wrapLoop sw font_name font_size max_width ws [] line ≠ [] := by
  induction ws with
  | nil => intro line; simp [wrapLoop]
  | cons w ws ih =>
    intro line
    simp only [wrapLoop]
    split_ifs with hfit
    · exact ih (line ++ " " ++ w)
    · rw [wrapLoop_acc]
      simp

theorem wrapLoop_lines_ok (sw : String → String → ℚ → ℚ) (font_name : String)
    (font_size max_width : ℚ) (W : List String) (ws : List String) :
    ∀ line : String,
      (sw line font_name font_size ≤ max_width ∨ line ∈ W) →
      (∀ w ∈ ws, w ∈ W) →
      ∀ l ∈ wrapLoop sw font_name font_size max_width ws [] line,
        sw l font_name font_size ≤ max_width ∨ l ∈ W := by
  induction ws with
  | nil =>
    intro line hline _ l hl
    simp [wrapLoop] at hl
    rw [hl]
    exact hline
  | cons w ws ih =>
    intro line hline hws l hl
    simp only [wrapLoop] at hl
    split_ifs at hl with hfit
    · exact ih (line ++ " " ++ w) (Or.inl hfit) (fun v hv => hws v (List.mem_cons_of_mem w hv)) l hl
    · rw [wrapLoop_acc] at hl
      simp only [List.nil_append] at hl
      rcases List.mem_append.1 hl with hmem | hmem
      · rw [List.mem_singleton] at hmem
        rw [hmem]
        exact hline
      · exact ih w (Or.inr (hws w (List.mem_cons_self w ws)))
          (fun v hv => hws v (List.mem_cons_of_mem w hv)) l hmem

theorem joinWithSpaces_cons (a : String) (ls : List String) (h : ls ≠ []) :
    joinWithSpaces (a :: ls) = a ++ " " ++ joinWithSpaces ls := by
  cases ls with
  | nil => exact absurd rfl h
  | cons b t => rfl

theorem joinWithSpaces_glue (a b : String) (ls : List String) :
    joinWithSpaces ((a ++ " " ++ b) :: ls) = joinWithSpaces (a :: b :: ls) := by
  cases ls with
  | nil => rfl
  | cons c t =>
    rw [joinWithSpaces_cons _ _ (by simp), joinWithSpaces_cons a _ (by simp),
      joinWithSpaces_cons b _ (by simp)]
    simp [String.append_assoc]

theorem wrapLoop_join (sw : String → String → ℚ → ℚ) (font_name : String)
    (font_size max_width : ℚ) (ws : List String) :
    ∀ line : String,
      joinWithSpaces (wrapLoop sw font_name font_size max_width ws [] line)
        = joinWithSpaces (line :: ws) := by
  induction ws with
  | nil => intro line; simp [wrapLoop]
  | cons w ws ih =>
    intro line
    simp only [wrapLoop]
    split_ifs with hfit
    · rw [ih (line ++ " " ++ w), joinWithSpaces_glue]
    · rw [wrapLoop_acc]
      simp only [List.nil_append, List.singleton_append]
      rw [joinWithSpaces_cons line _ (wrapLoop_ne_nil sw font_name font_size max_width ws w),
        ih w, joinWithSpaces_cons line (w :: ws) (by simp)]

/-- Claim C2: every line produced by the greedy wrapper either measures at
most `max_width` or is one of the original (unsplit) words of the text and
measures more than `max_width`; and joining the produced lines with single
spaces reproduces the original whitespace-delimited word sequence (joined
with single spaces) exactly, in order. -/
theorem wrap_text_to_width_spec (sw : String → String → ℚ → ℚ)
    (text font_name : String) (font_size max_width : ℚ) :
    (∀ l ∈ wrap_text_to_width sw text font_name font_size max_width,
      sw l font_name font_size ≤ max_width
        ∨ (l ∈ pySplit text ∧ max_width < sw l font_name font_size))
    ∧ joinWithSpaces (wrap_text_to_width sw text font_name font_size max_width)
        = joinWithSpaces (pySplit text) := by
  rw [wrap_text_to_width]
  rcases hsplit : pySplit text with _ | ⟨w, ws⟩
  · exact ⟨by simp, rfl⟩
  · constructor
    · intro l hl
      have hok := wrapLoop_lines_ok sw font_name font_size max_width (w :: ws) ws w
        (Or.inr (List.mem_cons_self w ws))
        (fun v hv => List.mem_cons_of_mem w hv) l hl
      rcases le_or_lt (sw l font_name font_size) max_width with hle | hgt
      · exact Or.inl hle
      · rcases hok with hle' | hmem
        · exact Or.inl hle'
        · exact Or.inr ⟨hmem, hgt⟩
    · exact wrapLoop_join sw font_name font_size max_width ws w

/- ----------------------------------------------------------------
   Claim theorems: descending font-size search.
---------------------------------------------------------------- -/

theorem fitLoop_spec (sw : String → String → ℚ → ℚ) (text font_name : String)
    (max_width min_size max_size : ℚ) :
    ∀ (fuel m : ℕ),
      (∀ j : ℕ, j < m → max_width < sw text font_name (max_size - j)) →
      (min_size ≤ max_size - m → Int.floor (max_size - m - min_size) < (fuel : ℤ)) →
      (∃ k : ℕ, fitLoop sw text font_name max_width min_size fuel (max_size - m) = max_size - k
          ∧ min_size ≤ max_size - (k:ℚ)
          ∧ sw text font_name (max_size - k) ≤ max_width
          ∧ ∀ j : ℕ, j < k → max_width < sw text font_name (max_size - j))
      ∨ (fitLoop sw text font_name max_width min_size fuel (max_size - m) = min_size
          ∧ ∀ k : ℕ, min_size ≤ max_size - (k:ℚ) → max_width < sw text font_name (max_size - k)) := by
  intro fuel
  induction fuel with
  | zero =>
    intro m hpre hfuel
    have hout : max_size - (m:ℚ) < min_size := by
      by_contra hcon
      push_neg at hcon
      have := hfuel hcon
      have h0 : (0:ℤ) ≤ Int.floor (max_size - m - min_size) :=
        Int.floor_nonneg.2 (by linarith)
      omega
    refine Or.inr ⟨rfl, ?_⟩
    intro k hk
    have hkm : (k:ℚ) < m := by linarith
    exact hpre k (by exact_mod_cast hkm)
  | succ fuel ih =>
    intro m hpre hfuel
    simp only [fitLoop]
    split_ifs with hlt hfit
    · refine Or.inr ⟨rfl, ?_⟩
      intro k hk
      have hkm : (k:ℚ) < m := by linarith
      exact hpre k (by exact_mod_cast hkm)
    · exact Or.inl ⟨m, rfl, not_lt.1 hlt, hfit, hpre⟩
    · have heq : max_size - (m:ℚ) - 1 = max_size - ((m+1 : ℕ):ℚ) := by push_cast; ring
      rw [heq]
      refine ih (m+1) ?_ ?_
      · intro j hj
        rcases Nat.lt_succ_iff_lt_or_eq.1 hj with hj' | hj'
        · exact hpre j hj'
        · rw [hj']
          exact not_le.1 hfit
      · intro h2
        have hm : min_size ≤ max_size - (m:ℚ) := by
          have : ((m:ℚ)) ≤ ((m+1 : ℕ):ℚ) := by push_cast; linarith
          linarith
        have he : max_size - ((m+1:ℕ):ℚ) - min_size = (max_size - (m:ℚ) - min_size) - 1 := by
          push_cast; ring
        rw [he, Int.floor_sub_one]
        have := hfuel hm
        push_cast at this ⊢
        omega

/-- Claim C7: with `min_size ≤ max_size`, `auto_fit_font_size` always
returns a usable size (at least `min_size`), and that size is either the
first element of the descending sequence `max_size, max_size - 1, …`
(stopping at `min_size`) whose single-line width fits `max_width` — all
earlier sizes in the sequence being too wide — or `min_size` itself when no
size in the sequence fits. -/
theorem auto_fit_font_size_spec (sw : String → String → ℚ → ℚ)
    (text font_name : String) (max_width max_size min_size : ℚ)
    (h : min_size ≤ max_size) :
    min_size ≤ auto_fit_font_size sw text font_name max_width max_size min_size
    ∧ ((∃ k : ℕ,
        auto_fit_font_size sw text font_name max_width max_size min_size = max_size - k
          ∧ min_size ≤ max_size - (k:ℚ)
          ∧ sw text font_name (max_size - k) ≤ max_width
          ∧ ∀ j : ℕ, j < k → max_width < sw text font_name (max_size - j))
      ∨ (auto_fit_font_size sw text font_name max_width max_size min_size = min_size
          ∧ ∀ k : ℕ, min_size ≤ max_size - (k:ℚ) → max_width < sw text font_name (max_size - k))) := by
  have h0 : (0:ℤ) ≤ Int.floor (max_size - min_size) := Int.floor_nonneg.2 (by linarith)
  have hspec := fitLoop_spec sw text font_name max_width min_size max_size
      ((Int.floor (max_size - min_size)).toNat + 1) 0
      (fun j hj => absurd hj (Nat.not_lt_zero j))
      (by
        intro _
        push_cast [Int.toNat_of_nonneg h0]
        simp only [Nat.cast_zero, sub_zero]
        omega)
  simp only [Nat.cast_zero, sub_zero] at hspec
  rw [auto_fit_font_size]
  refine ⟨?_, hspec⟩
  rcases hspec with ⟨k, hk, hge, _, _⟩ | ⟨hk, _⟩
  · rw [hk]; exact hge
  · rw [hk]

/-- Witness for C7: with a width oracle whose single-line width equals the
size, max 12, min 8, limit 10, the search returns 10 = 12 - 2. -/
theorem auto_fit_font_size_spec_witness :
    (8:ℚ) ≤ 12 ∧
    ((8:ℚ) ≤ auto_fit_font_size sizeSW "title" "Poppins-Bold" 10 12 8
    ∧ ((∃ k : ℕ,
        auto_fit_font_size sizeSW "title" "Poppins-Bold" 10 12 8 = 12 - k
          ∧ (8:ℚ) ≤ 12 - (k:ℚ)
          ∧ sizeSW "title" "Poppins-Bold" (12 - k) ≤ 10
          ∧ ∀ j : ℕ, j < k → 10 < sizeSW "title" "Poppins-Bold" (12 - j))
      ∨ (auto_fit_font_size sizeSW "title" "Poppins-Bold" 10 12 8 = 8
          ∧ ∀ k : ℕ, (8:ℚ) ≤ 12 - (k:ℚ) → 10 < sizeSW "title" "Poppins-Bold" (12 - k)))) :=
  ⟨by norm_num,
    auto_fit_font_size_spec sizeSW "title" "Poppins-Bold" 10 12 8 (by norm_num)⟩

/- ----------------------------------------------------------------
   Claim theorems: Roman numerals.
---------------------------------------------------------------- -/

/-- Claim C9: `to_roman` succeeds exactly on 1 ≤ n ≤ 3999 and fails with a
range error otherwise; on 1..4 it yields I, II, III, IV, on 3999 the full
numeral, and on 4000 the fatal range error. -/
theorem to_roman_spec :
    (∀ n : ℤ, (to_roman n).toOption.isSome = true ↔ (0 < n ∧ n < 4000))
    ∧ to_roman 1 = Except.ok "I"
    ∧ to_roman 2 = Except.ok "II"
    ∧ to_roman 3 = Except.ok "III"
    ∧ to_roman 4 = Except.ok "IV"
    ∧ to_roman 3999 = Except.ok "MMMCMXCIX"
    ∧ to_roman 4000 = Except.error "Number out of range (must be 1–3999)" := by
  refine ⟨?_, rfl, rfl, rfl, rfl, rfl, rfl⟩
  intro n
  by_cases h : 0 < n ∧ n < 4000
  · simp [to_roman, h, Except.toOption]
  · simp [to_roman, h, Except.toOption]

/- ----------------------------------------------------------------
   Claim theorems: citation linking.
---------------------------------------------------------------- -/

set_option maxRecDepth 4000 in
/-- Claim C8: `link_citations` resolves `[n]`, `[n, m]` and `[n-m]` markers
to `#ref_N` targets keyed by the integer index, ranges expanding to every
intervening integer (ascending or descending), each individually linked.
In particular `"results [1, 3-5]"` resolves to targets 1, 3, 4, 5 in order,
`"[2]"` to 2, `"see [1, 2]."` to 1 and 2, and the descending `"[5-3]"` to
5, 4, 3. -/
theorem link_citations_spec :
    extractRefTargets (link_citations "results [1, 3-5]") = [1, 3, 4, 5]
    ∧ extractRefTargets (link_citations "[2]") = [2]
    ∧ extractRefTargets (link_citations "see [1, 2].") = [1, 2]
    ∧ extractRefTargets (link_citations "[5-3]") = [5, 4, 3]
    ∧ link_citations "results [1, 3-5]"
      = "results [<link href=\"#ref_1\"><font color=\"#163b8a\">1</font></link>, "
        ++ "<link href=\"#ref_3\"><font color=\"#163b8a\">3</font></link>–"
        ++ "<link href=\"#ref_4\"><font color=\"#163b8a\">4</font></link>–"
        ++ "<link href=\"#ref_5\"><font color=\"#163b8a\">5</font></link>]" :=
  ⟨rfl, rfl, rfl, rfl, rfl⟩

/- ----------------------------------------------------------------
   Claim theorems: measure/place consistency.
---------------------------------------------------------------- -/

theorem sepLineYs_append (a b : List DrawOp) :
    sepLineYs (a ++ b) = sepLineYs a ++ sepLineYs b := by
  simp [sepLineYs]

theorem sepLineYs_headerTextOps (sw : String → String → ℚ → ℚ) (header_font : String)
    (header_font_size header_height y : ℚ) :
    ∀ (styles : List (String × ColStyle)) (current_x : ℚ),
      sepLineYs (headerTextOps sw header_font header_font_size header_height y styles current_x)
        = [] := by
  intro styles
  induction styles with
  | nil => intro current_x; rfl
  | cons kv rest ih =>
    intro current_x
    simp only [headerTextOps, sepLineYs, List.filterMap_cons]
    exact ih _

theorem sepLineYs_cellLineOps (sw : String → String → ℚ → ℚ) (font : String) (fs : ℚ)
    (align : String) (current_x colWidth cell_padding : ℚ) :
    ∀ (ls : List String) (line_y : ℚ),
      sepLineYs (cellLineOps sw font fs align current_x colWidth cell_padding ls line_y) = [] := by
  intro ls
  induction ls with
  | nil => intro line_y; rfl
  | cons l ls ih =>
    intro line_y
    simp only [cellLineOps, sepLineYs, List.filterMap_cons]
    exact ih _

theorem sepLineYs_rowCellOps (sw : String → String → ℚ → ℚ) (fonts : List (String × String))
    (cell_padding current_y : ℚ) (row : List (String × String)) :
    ∀ (styles : List (String × ColStyle)) (current_x : ℚ),
      sepLineYs (rowCellOps sw fonts cell_padding current_y row styles current_x) = [] := by
  intro styles
  induction styles with
  | nil => intro current_x; rfl
  | cons kv rest ih =>
    intro current_x
    simp only [rowCellOps]
    rw [sepLineYs_append, sepLineYs_cellLineOps, ih]
    rfl

theorem sepLineYs_captionLineOps (sw : String → String → ℚ → ℚ) (font : String) (fs : ℚ)
    (align : String) (x table_width : ℚ) :
    ∀ (ls : List String) (caption_y : ℚ),
      sepLineYs (captionLineOps sw font fs align x table_width ls caption_y) = [] := by
  intro ls
  induction ls with
  | nil => intro caption_y; rfl
  | cons l ls ih =>
    intro caption_y
    simp only [captionLineOps, sepLineYs, List.filterMap_cons]
    exact ih _

theorem sepLineYs_drawRows (sw : String → String → ℚ → ℚ) (fonts : List (String × String))
    (column_styles : List (String × ColStyle)) (cell_padding x table_width : ℚ) :
    ∀ (data : List (List (String × String))) (rhs : List ℚ) (i : ℕ) (current_y : ℚ),
      data.length = rhs.length →
      sepLineYs (drawRows sw fonts column_styles cell_padding x table_width
          data rhs i current_y).1
        = (List.range data.length).map (fun k => current_y - (rhs.take (k + 1)).sum) := by
  intro data
  induction data with
  | nil => intro rhs i current_y _; simp [drawRows, sepLineYs]
  | cons row rest ih =>
    intro rhs i current_y hlen
    cases rhs with
    | nil => simp at hlen
    | cons rh rhs' =>
      simp only [drawRows]
      rw [sepLineYs_append, sepLineYs_append, sepLineYs_append]
      have halt : sepLineYs
          (if i % 2 = 1 then [DrawOp.rect x (current_y - rh) table_width rh] else []) = [] := by
        split_ifs <;> rfl
      rw [halt, sepLineYs_rowCellOps,
        ih rhs' (i + 1) (current_y - rh) (by simpa using hlen)]
      simp only [List.nil_append, List.length_cons, List.range_succ_eq_map, List.map_cons,
        List.map_map]
      have hsep : sepLineYs [DrawOp.line x (current_y - rh) (x + table_width) (current_y - rh)]
          = [current_y - rh] := rfl
      rw [hsep, List.singleton_append]
      refine List.cons_eq_cons.2 ⟨by simp, ?_⟩
      apply List.map_congr_left
      intro k _
      simp only [Function.comp_apply, List.take_succ_cons, List.sum_cons]
      ring

/-- Claim C4 (measure/place consistency).  First conjunct: the band height
`total_h` computed by `measure_fullwidth_table_group` (caption wrap height +
table flowable wrap heights + the 0.06-inch `spacer_after`) equals the total
placed height of the flowables the full-width story branch actually appends
(the measured caption, the measured table flowables, and the trailing
`Spacer(1, 0.06*inch)`), for any deterministic wrap-height oracle.  Second
conjunct: the separator lines drawn by `draw_rounded_table` sit exactly at
the partial sums of the pre-computed row heights below the header, i.e. each
row is drawn at exactly its pre-computed height. -/
theorem measure_place_consistency_spec (wrapH : Flowable → ℚ → ℚ)
    (sw : String → String → ℚ → ℚ) (headers : List String) (rows : List (List String))
    (caption_text : String) (docWidth : ℚ) (col_widths : Option (List ℚ))
    (fonts : List (String × String)) (x y : ℚ) (config : TableConfig) :
    (measure_fullwidth_table_group wrapH sw headers rows caption_text docWidth col_widths
        (0.06 * 72)).2.2
      = storyHeight wrapH docWidth
          (fullwidthTableStory wrapH sw headers rows caption_text docWidth col_widths)
    ∧ sepLineYs (draw_rounded_table sw fonts x y config)
      = (List.range config.data.length).map
          (fun i => y - headerHeightOf config - ((rowHeights sw fonts config).take (i + 1)).sum) := by
  constructor
  · simp only [measure_fullwidth_table_group, fullwidthTableStory, make_table_flowables,
      storyHeight, flowableHeight, List.map_cons, List.map_append, List.map_nil,
      List.sum_cons, List.sum_append, List.sum_nil]
    ring
  · rw [draw_rounded_table]
    simp only
    rw [sepLineYs_append, sepLineYs_append, sepLineYs_append]
    have hbg : sepLineYs
        [DrawOp.clip x (y - (headerHeightOf config + (rowHeights sw fonts config).sum))
            config.width (headerHeightOf config + (rowHeights sw fonts config).sum) config.radius,
         DrawOp.rect x (y - (headerHeightOf config + (rowHeights sw fonts config).sum))
            config.width (headerHeightOf config + (rowHeights sw fonts config).sum),
         DrawOp.roundRect x (y - (headerHeightOf config + (rowHeights sw fonts config).sum))
            config.width (headerHeightOf config + (rowHeights sw fonts config).sum) config.radius]
        = [] := rfl
    have hhdr : sepLineYs
        (DrawOp.rect x (y - headerHeightOf config) config.width (headerHeightOf config) ::
          headerTextOps sw (fontOf fonts config.header_style.font)
            config.header_style.font_size (headerHeightOf config) y config.column_styles x)
        = [] := by
      simp only [sepLineYs, List.filterMap_cons]
      exact sepLineYs_headerTextOps sw _ _ _ y config.column_styles x
    have hcap : sepLineYs (match config.caption with
        | none => []
        | some cap =>
            captionLineOps sw (fontOf fonts config.caption_style.font)
              config.caption_style.font_size config.caption_style.align.toUpper x config.width
              (wrap_text_to_width_ct sw cap (fontOf fonts config.caption_style.font)
                config.caption_style.font_size config.width)
              (y - (headerHeightOf config + (rowHeights sw fonts config).sum) - 12))
        = [] := by
      cases config.caption with
      | none => rfl
      | some cap => exact sepLineYs_captionLineOps sw _ _ _ x config.width _ _
    rw [hbg, hhdr, hcap,
      sepLineYs_drawRows sw fonts config.column_styles config.cell_padding x config.width
        config.data (rowHeights sw fonts config) 0 (y - headerHeightOf config)
        (by rw [rowHeights, List.length_map])]
    simp
